import Mathlib

/-!
Verification development for the Coze JS signing library.

The JavaScript sources are embedded shallowly:

* byte buffers (`Uint8Array` / `ArrayBuffer`) become `List Byte` with
  `Byte := Fin 256`;
* JS big integers (`BigInt`) become `Nat` (all values handled by the
  library's big-integer code are non-negative);
* strings become `List Char`;
* JS objects whose first-level fields matter (a coze `pay`) become
  insertion-ordered association lists `JsObj`;
* fallible functions (JS `throw`) return `Except Err _`;
* the platform cryptography (`crypto.subtle`) is an explicit parameter
  of type `Platform`; the library only adapts its inputs and outputs.
-/

/-- A byte, as stored in a JS `Uint8Array`. -/
abbrev Byte := Fin 256

/-- `arrayBufferToBigInt` (cryptokey.js): big-endian bytes to a big integer,
computed as `result = (result << 8n) + BigInt(a[i])` over the buffer. -/
def arrayBufferToBigInt (buffer : List Byte) : Nat :=
  buffer.foldl (fun result a => result * 256 + a.val) 0

/-- `bigIntToArrayBuffer` (cryptokey.js): writes `size` bytes big-endian,
low byte last, repeatedly taking `bigInt & 0xff` and shifting by 8. -/
def bigIntToArrayBuffer : Nat → Nat → List Byte
  | 0, _ => []
  | n + 1, bigInt =>
      bigIntToArrayBuffer n (bigInt / 256) ++ [⟨bigInt % 256, Nat.mod_lt _ (by omega)⟩]

theorem arrayBufferToBigInt_append_one (l : List Byte) (b : Byte) :
    arrayBufferToBigInt (l ++ [b]) = arrayBufferToBigInt l * 256 + b.val := by
  simp [arrayBufferToBigInt, List.foldl_append]

theorem bigIntToArrayBuffer_length (size v : Nat) :
    (bigIntToArrayBuffer size v).length = size := by
  induction size generalizing v with
  | zero => rfl
  | succ n ih => simp [bigIntToArrayBuffer, ih]

/-- Re-encoding the big-endian value of a buffer at the buffer's own length
reproduces the buffer. -/
theorem bigIntToArrayBuffer_arrayBufferToBigInt (l : List Byte) :
    bigIntToArrayBuffer l.length (arrayBufferToBigInt l) = l := by
  induction l using List.reverseRecOn with
  | nil => rfl
  | append_singleton t b ih =>
      rw [arrayBufferToBigInt_append_one]
      have hlen : (t ++ [b]).length = t.length + 1 := by simp
      rw [hlen]
      have hdiv : (arrayBufferToBigInt t * 256 + b.val) / 256 = arrayBufferToBigInt t := by
        omega
      have hmod : (arrayBufferToBigInt t * 256 + b.val) % 256 = b.val := by
        omega
      simp only [bigIntToArrayBuffer, hdiv, hmod]
      rw [ih]

/-- Decoding a fixed-width encoding of `v` returns `v` when `v` fits. -/
theorem arrayBufferToBigInt_bigIntToArrayBuffer (size v : Nat) (h : v < 256 ^ size) :
    arrayBufferToBigInt (bigIntToArrayBuffer size v) = v := by
  induction size generalizing v with
  | zero =>
      simp [bigIntToArrayBuffer, arrayBufferToBigInt]
      omega
  | succ n ih =>
      have hfit : v / 256 < 256 ^ n := by
        rw [Nat.div_lt_iff_lt_mul (by omega)]
        calc v < 256 ^ (n + 1) := h
        _ = 256 ^ n * 256 := by ring
      simp only [bigIntToArrayBuffer, arrayBufferToBigInt_append_one, ih _ hfit]
      omega

/-! ## Base-64 text encoding (coze.js base conversion section)

`btoa`/`atob` are the platform's standard and forgiving base-64 routines
(WHATWG); the library composes them with the URL-safe character
translation and the padding strip, and adds the canonical-encoding check.
-/

/-- Error kinds; one constructor per distinct JS `throw` site reached by the
embedded functions. -/
inductive Err where
  | revokedKey
  | algMismatch
  | tmbMismatch
  | nonCanonicalB64
  | invalidB64Char
  | unsupportedAlg
  | thumbprintEmptyAlgOrX
  | keyNotSet
  | typeError
  | hashNotGiven
deriving DecidableEq

/-- Value of a character of the standard base-64 alphabet, `none` otherwise. -/
def b64CharVal (c : Char) : Option Nat :=
  let n := c.toNat
  if 65 ≤ n ∧ n ≤ 90 then some (n - 65)
  else if 97 ≤ n ∧ n ≤ 122 then some (n - 97 + 26)
  else if 48 ≤ n ∧ n ≤ 57 then some (n - 48 + 52)
  else if n = 43 then some 62
  else if n = 47 then some 63
  else none

/-- Character of the standard base-64 alphabet for a 6-bit value. -/
def b64ValChar (n : Nat) : Char :=
  if n < 26 then Char.ofNat (65 + n)
  else if n < 52 then Char.ofNat (97 + n - 26)
  else if n < 62 then Char.ofNat (48 + n - 52)
  else if n = 62 then Char.ofNat 43
  else Char.ofNat 47

/-- Byte from an (already in-range) accumulated value. -/
def mkByte (n : Nat) : Byte := ⟨n % 256, Nat.mod_lt _ (by omega)⟩

/-- Forgiving base-64 bit reassembly: groups of four 6-bit values give three
bytes; a final group of two or three values gives one or two bytes, with the
leftover low bits discarded (WHATWG forgiving-base64 step 9). -/
def b64DecodeVals : List Nat → List Byte
  | a :: b :: c :: d :: rest =>
      mkByte (a * 4 + b / 16) :: mkByte (b % 16 * 16 + c / 4) ::
        mkByte (c % 4 * 64 + d) :: b64DecodeVals rest
  | [a, b] => [mkByte (a * 4 + b / 16)]
  | [a, b, c] => [mkByte (a * 4 + b / 16), mkByte (b % 16 * 16 + c / 4)]
  | _ => []

/-- Platform `atob` (WHATWG forgiving-base64 decode): strip ASCII whitespace,
strip up to two trailing `=` when the length is a multiple of four, fail on
length `4k+1`, fail on characters outside the standard alphabet. -/
def atob (input : List Char) : Except Err (List Byte) :=
  let data := input.filter (fun c => !c.isWhitespace)
  let data :=
    if data.length % 4 = 0 then
      match data.reverse with
      | '=' :: '=' :: r => r.reverse
      | '=' :: r => r.reverse
      | _ => data
    else data
  if data.length % 4 = 1 then .error .invalidB64Char
  else
    match data.mapM b64CharVal with
    | none => .error .invalidB64Char
    | some vals => .ok (b64DecodeVals vals)

/-- Platform `btoa`: standard base-64 encode with `=` padding. -/
def btoa : List Byte → List Char
  | [] => []
  | b1 :: b2 :: b3 :: rest =>
      b64ValChar (b1.val / 4) :: b64ValChar (b1.val % 4 * 16 + b2.val / 16) ::
        b64ValChar (b2.val % 16 * 4 + b3.val / 64) :: b64ValChar (b3.val % 64) :: btoa rest
  | [b1] => [b64ValChar (b1.val / 4), b64ValChar (b1.val % 4 * 16), '=', '=']
  | [b1, b2] =>
      [b64ValChar (b1.val / 4), b64ValChar (b1.val % 4 * 16 + b2.val / 16),
        b64ValChar (b2.val % 16 * 4), '=']

/-- The replace-all translation plus-to-dash and slash-to-underscore. -/
def stdToUrl (c : Char) : Char :=
  if c.toNat = 43 then Char.ofNat 45 else if c.toNat = 47 then Char.ofNat 95 else c

/-- The replace-all translation dash-to-plus and underscore-to-slash. -/
def urlToStd (c : Char) : Char :=
  if c.toNat = 45 then Char.ofNat 43 else if c.toNat = 95 then Char.ofNat 47 else c

/-- `ArrayBufferTo64ut` (coze.js): `btoa` then translate `+`,`/` to `-`,`_`
and strip `=`. -/
def ArrayBufferTo64ut (buffer : List Byte) : List Char :=
  ((btoa buffer).map stdToUrl).filter (fun c => !(c = '='))

/-- `B64ToUint8Array` (coze.js): translate to the standard alphabet, then
require the padding-stripped `btoa(atob(string))` to equal the translated
input, else throw the non-canonical error; returns the bytes of `atob`. -/
def B64ToUint8Array (string : List Char) : Except Err (List Byte) :=
  let string := string.map urlToStd
  match atob string with
  | .error e => .error e
  | .ok bytes =>
      let reencode := (btoa bytes).filter (fun c => !(c = '='))
      if reencode = string then .ok bytes else .error .nonCanonicalB64

/-- `B64uToArrayBuffer` (coze.js) is `B64ToUint8Array(string).buffer`. -/
def B64uToArrayBuffer (string : List Char) : Except Err (List Byte) :=
  B64ToUint8Array string

/-- Membership in the URL-safe, padding-free base-64 alphabet
(`A-Z a-z 0-9 - _`). -/
def isUrlB64Char (c : Char) : Bool :=
  let n := c.toNat
  (65 ≤ n && n ≤ 90) || (97 ≤ n && n ≤ 122) || (48 ≤ n && n ≤ 57) || n = 45 || n = 95

/-- Membership in the standard base-64 alphabet. -/
def isStdB64Char (c : Char) : Bool :=
  (b64CharVal c).isSome

theorem char_toNat_inj {a b : Char} (h : a.toNat = b.toNat) : a = b := by
  rw [← Char.ofNat_toNat a, ← Char.ofNat_toNat b, h]

theorem list_map_id_of {α : Type} (f : α → α) (l : List α) (h : ∀ c ∈ l, f c = c) :
    l.map f = l := by
  induction l with
  | nil => rfl
  | cons c t ih =>
      simp only [List.map_cons, h c (by simp)]
      rw [ih (fun d hd => h d (by simp [hd]))]

theorem stdToUrl_urlToStd (c : Char) (h : isUrlB64Char c = true) :
    stdToUrl (urlToStd c) = c := by
  simp only [isUrlB64Char, Bool.or_eq_true, Bool.and_eq_true, decide_eq_true_eq] at h
  by_cases h45 : c.toNat = 45
  · have hc : c = Char.ofNat 45 := char_toNat_inj (by rw [h45]; decide)
    rw [hc]; decide
  · by_cases h95 : c.toNat = 95
    · have hc : c = Char.ofNat 95 := char_toNat_inj (by rw [h95]; decide)
      rw [hc]; decide
    · have h43 : c.toNat ≠ 43 := by omega
      have h47 : c.toNat ≠ 47 := by omega
      simp [urlToStd, stdToUrl, h45, h95, h43, h47]

theorem urlToStd_stdToUrl (c : Char) (h : isStdB64Char c = true) :
    urlToStd (stdToUrl c) = c := by
  simp only [isStdB64Char, b64CharVal, Option.isSome] at h
  by_cases h43 : c.toNat = 43
  · have hc : c = Char.ofNat 43 := char_toNat_inj (by rw [h43]; decide)
    rw [hc]; decide
  · by_cases h47 : c.toNat = 47
    · have hc : c = Char.ofNat 47 := char_toNat_inj (by rw [h47]; decide)
      rw [hc]; decide
    · have hrange : (65 ≤ c.toNat ∧ c.toNat ≤ 90) ∨ (97 ≤ c.toNat ∧ c.toNat ≤ 122) ∨
          (48 ≤ c.toNat ∧ c.toNat ≤ 57) := by
        by_cases hA : 65 ≤ c.toNat ∧ c.toNat ≤ 90
        · exact Or.inl hA
        · by_cases ha : 97 ≤ c.toNat ∧ c.toNat ≤ 122
          · exact Or.inr (Or.inl ha)
          · by_cases hd : 48 ≤ c.toNat ∧ c.toNat ≤ 57
            · exact Or.inr (Or.inr hd)
            · simp [hA, ha, hd, h43, h47] at h
      have h45 : c.toNat ≠ 45 := by omega
      have h95 : c.toNat ≠ 95 := by omega
      simp [stdToUrl, urlToStd, h43, h47, h45, h95]

theorem b64ValChar_isStd : ∀ n, n < 64 → isStdB64Char (b64ValChar n) = true := by
  decide

theorem btoa_mem (bytes : List Byte) (c : Char) (h : c ∈ btoa bytes) :
    c = '=' ∨ isStdB64Char c = true := by
  induction bytes using btoa.induct with
  | case1 => simp [btoa] at h
  | case2 b1 b2 b3 rest ih =>
      simp only [btoa, List.mem_cons] at h
      rcases h with h | h | h | h | h
      · exact Or.inr (h ▸ b64ValChar_isStd _ (by omega))
      · exact Or.inr (h ▸ b64ValChar_isStd _ (by have := b2.isLt; omega))
      · exact Or.inr (h ▸ b64ValChar_isStd _ (by have := b3.isLt; omega))
      · exact Or.inr (h ▸ b64ValChar_isStd _ (by omega))
      · exact ih h
  | case3 b1 =>
      simp only [btoa, List.mem_cons] at h
      rcases h with h | h | h | h | h
      · exact Or.inr (h ▸ b64ValChar_isStd _ (by omega))
      · exact Or.inr (h ▸ b64ValChar_isStd _ (by omega))
      · exact Or.inl h
      · exact Or.inl h
      · simp at h
  | case4 b1 b2 =>
      simp only [btoa, List.mem_cons] at h
      rcases h with h | h | h | h | h
      · exact Or.inr (h ▸ b64ValChar_isStd _ (by omega))
      · exact Or.inr (h ▸ b64ValChar_isStd _ (by have := b2.isLt; omega))
      · exact Or.inr (h ▸ b64ValChar_isStd _ (by omega))
      · exact Or.inl h
      · simp at h

theorem stdToUrl_ne_pad (c : Char) (h : isStdB64Char c = true) (hne : c ≠ '=') :
    stdToUrl c ≠ '=' := by
  intro hc
  have hu := urlToStd_stdToUrl c h
  rw [hc] at hu
  exact hne (by rw [← hu]; decide)

theorem filter_map_stdToUrl (l : List Char) (h : ∀ c ∈ l, c = '=' ∨ isStdB64Char c = true) :
    (l.map stdToUrl).filter (fun c => !(c = '=')) =
      (l.filter (fun c => !(c = '='))).map stdToUrl := by
  induction l with
  | nil => rfl
  | cons c t ih =>
      have hc := h c (by simp)
      have ht : ∀ d ∈ t, d = '=' ∨ isStdB64Char d = true := fun d hd => h d (by simp [hd])
      simp only [List.map_cons, List.filter_cons]
      by_cases he : c = '='
      · have hsc : stdToUrl c = '=' := by rw [he]; decide
        simp only [he, hsc, ih ht]
        simp [ih ht, show stdToUrl '=' = '=' by decide]
      · have hsc : stdToUrl c ≠ '=' := by
          rcases hc with hc | hc
          · exact absurd hc he
          · exact stdToUrl_ne_pad c hc he
        simp [he, hsc, ih ht]

/-- The canonical-encoding comparison done by `B64ToUint8Array` in the
standard alphabet is equivalent to comparing the URL-safe re-encoding
against the original URL-safe input. -/
theorem reencode_eq_iff (bytes : List Byte) (s : List Char)
    (hs : ∀ c ∈ s, isUrlB64Char c = true) :
    ((btoa bytes).filter (fun c => !(c = '='))) = s.map urlToStd ↔
      ArrayBufferTo64ut bytes = s := by
  have hAB : ArrayBufferTo64ut bytes =
      ((btoa bytes).filter (fun c => !(c = '='))).map stdToUrl :=
    filter_map_stdToUrl _ (btoa_mem bytes)
  have hF : ∀ c ∈ (btoa bytes).filter (fun c => !(c = '=')), isStdB64Char c = true := by
    intro c hcmem
    rw [List.mem_filter] at hcmem
    rcases btoa_mem bytes c hcmem.1 with h | h
    · exact absurd h (by simpa using hcmem.2)
    · exact h
  constructor
  · intro h
    rw [hAB, h, List.map_map]
    exact list_map_id_of _ s (fun c hc => stdToUrl_urlToStd c (hs c hc))
  · intro h
    rw [hAB] at h
    rw [← h, List.map_map]
    exact (list_map_id_of _ _ (fun c hc => urlToStd_stdToUrl c (hF c hc))).symm

/-! ## JS values, first-level objects and JSON serialization

A coze `pay` is a JS object whose first-level fields carry flat values
(strings, numbers, booleans, null); assignment of `undefined` creates the
property, and `JSON.stringify` then omits it, exactly as in JS. -/

/-- A first-level JS field value. -/
inductive Val where
  | vstr (s : List Char)
  | vint (n : Int)
  | vbool (b : Bool)
  | vnull
  | vundef
deriving DecidableEq

/-- A JS object restricted to its first level: fields in insertion order. -/
abbrev JsObj := List (List Char × Val)

/-- Property read `object[k]`; an absent property reads as `undefined`. -/
def jsGet : JsObj → List Char → Val
  | [], _ => .vundef
  | (k1, v) :: t, k => if k1 = k then v else jsGet t k

/-- Property write `object[k] = v`: updates an existing property in place
(keeping its position) or appends a new one, as JS objects do. -/
def jsSet : JsObj → List Char → Val → JsObj
  | [], k, v => [(k, v)]
  | (k1, v1) :: t, k, v => if k1 = k then (k, v) :: t else (k1, v1) :: jsSet t k v

/-- The numeric value of an all-digit key. -/
def digitsVal (k : List Char) : Nat :=
  k.foldl (fun a c => a * 10 + (c.toNat - 48)) 0

/-- An ECMAScript array-index key: a canonical decimal numeral (no sign, no
leading zero except "0" itself) whose value is below 2^32 - 1. JS objects
enumerate these own keys first, in ascending numeric order. -/
def isArrayIndex (k : List Char) : Bool :=
  match k with
  | [] => false
  | c :: rest =>
      (48 ≤ c.toNat && c.toNat ≤ 57) &&
      rest.all (fun d => 48 ≤ d.toNat && d.toNat ≤ 57) &&
      (rest.isEmpty || !(c.toNat = 48)) &&
      digitsVal (c :: rest) < 4294967295

/-- Insert an entry into a list of array-index entries, ascending by
numeric key value. -/
def insertIdxEntry (p : List Char × Val) : JsObj → JsObj
  | [] => [p]
  | q :: t =>
      if digitsVal p.1 < digitsVal q.1 then p :: q :: t else q :: insertIdxEntry p t

/-- Sort array-index entries ascending by numeric key value. -/
def sortIdxEntries : JsObj → JsObj
  | [] => []
  | p :: t => insertIdxEntry p (sortIdxEntries t)

/-- ES2015 own-property enumeration order (OrdinaryOwnPropertyKeys), as
followed by `Object.keys` and `JSON.stringify`: array-index keys first in
ascending numeric order, then the remaining string keys in property
creation order. -/
def enumEntries (o : JsObj) : JsObj :=
  sortIdxEntries (o.filter (fun p => isArrayIndex p.1)) ++
    o.filter (fun p => !isArrayIndex p.1)

/-- Insert a key into a list of array-index keys, ascending by numeric
value. -/
def insertIdxKey (k : List Char) : List (List Char) → List (List Char)
  | [] => [k]
  | q :: t => if digitsVal k < digitsVal q then k :: q :: t else q :: insertIdxKey k t

/-- Sort array-index keys ascending by numeric value. -/
def sortIdxKeys : List (List Char) → List (List Char)
  | [] => []
  | k :: t => insertIdxKey k (sortIdxKeys t)

/-- The enumeration order on a key list: array-index keys first in
ascending numeric order, then the rest in their given order. -/
def enumKeys (l : List (List Char)) : List (List Char) :=
  sortIdxKeys (l.filter isArrayIndex) ++ l.filter (fun k => !isArrayIndex k)

/-- `isBool` (coze.js): everything is false except a few key words. On the
flat values the object/array/function cases cannot arise. -/
def isBoolV : Val → Bool
  | .vbool b => b
  | .vint n => !(n = 0)
  | .vstr s =>
      !(s = [] ∨ s = "false".toList ∨ s = "undefined".toList ∨ s = "0".toList ∨
        s = "null".toList ∨ s = "NaN".toList)
  | .vnull => false
  | .vundef => false

/-- `isEmpty` (coze.js) on a flat value: no object/array/function case
applies, so it is the negation of `isBool`. -/
def isEmptyV (v : Val) : Bool := !(isBoolV v)

/-- `isEmpty` applied to an optional string-valued field (absent reads as
`undefined`). -/
def isEmptyOS : Option (List Char) → Bool
  | none => true
  | some s => isEmptyV (.vstr s)

/-- Reading an optional field as a JS value. -/
def fieldVal : Option Val → Val
  | none => .vundef
  | some v => v

/-- An optional string-valued field as a JS value. -/
def strFieldVal : Option (List Char) → Val
  | none => .vundef
  | some s => .vstr s

/-- JS strict equality between a first-level value and an optional
string-valued field. -/
def valEqOptStr (v : Val) (o : Option (List Char)) : Bool :=
  match v, o with
  | .vstr s, some t => s = t
  | .vundef, none => true
  | _, _ => false

/-- Decimal digit value. -/
def digitVal (c : Char) : Option Nat :=
  if 48 ≤ c.toNat ∧ c.toNat ≤ 57 then some (c.toNat - 48) else none

/-- Accumulate a maximal run of leading digits. -/
def leadDigitsAux : List Char → Nat → Nat
  | [], acc => acc
  | c :: t, acc =>
      match digitVal c with
      | some d => leadDigitsAux t (acc * 10 + d)
      | none => acc

/-- Value of a non-empty maximal run of leading digits, `none` when the
first character is not a digit. -/
def leadDigits : List Char → Option Nat
  | [] => none
  | c :: t =>
      match digitVal c with
      | some d => some (leadDigitsAux t d)
      | none => none

/-- JS `parseInt` on a string: trim leading whitespace, optional sign,
maximal run of decimal digits; `none` is `NaN`. -/
def parseIntStr (s : List Char) : Option Int :=
  let t := s.dropWhile (fun c => c.isWhitespace)
  match t with
  | c :: r =>
      if c.toNat = 45 then (leadDigits r).map (fun n => -(n : Int))
      else if c.toNat = 43 then (leadDigits r).map (fun n => (n : Int))
      else (leadDigits t).map (fun n => (n : Int))
  | [] => none

/-- JS `parseInt` on a flat value: the value is converted to a string first,
so booleans and null parse as `NaN` and integers parse back to themselves. -/
def parseIntV : Val → Option Int
  | .vint n => some n
  | .vstr s => parseIntStr s
  | .vbool _ => none
  | .vnull => none
  | .vundef => none

/-- The left-brace character, code 123. -/
def lbrace : Char := Char.ofNat 123

/-- The right-brace character, code 125. -/
def rbrace : Char := Char.ofNat 125

/-- JSON string escaping for one character (quote and backslash). -/
def jsonEscape (c : Char) : List Char :=
  if c = '"' then ['\\', '"'] else if c = '\\' then ['\\', '\\'] else [c]

/-- A JSON string literal. -/
def jsonQuote (s : List Char) : List Char :=
  '"' :: s.foldr (fun c acc => jsonEscape c ++ acc) ['"']

/-- `JSON.stringify` of a flat value. `undefined` has no JSON
representation; members holding it are dropped by `jsonMembers`. -/
def stringifyVal : Val → List Char
  | .vstr s => jsonQuote s
  | .vint n => (toString n).toList
  | .vbool true => "true".toList
  | .vbool false => "false".toList
  | .vnull => "null".toList
  | .vundef => []

/-- The comma-separated member list of a stringified object; members whose
value is `undefined` are omitted, as `JSON.stringify` does. -/
def jsonMembers : JsObj → List Char
  | [] => []
  | (k, v) :: t =>
      if v = .vundef then jsonMembers t
      else
        let m := jsonQuote k ++ ':' :: stringifyVal v
        match jsonMembers t with
        | [] => m
        | rest => m ++ ',' :: rest

/-- `JSON.stringify` of a first-level object: members in the JS
own-property enumeration order (array-index keys first, ascending; then
creation order), no extraneous whitespace. -/
def stringifyObj (o : JsObj) : List Char :=
  lbrace :: jsonMembers (enumEntries o) ++ [rbrace]

/-! ## Algorithm registry (alg.js) and curve orders (part_008) -/

/-- `Genus` (alg.js): string-keyed switch. -/
def Genus (alg : List Char) : Except Err (List Char) :=
  if alg = "ES224".toList ∨ alg = "ES256".toList ∨ alg = "ES384".toList ∨
      alg = "ES512".toList then .ok "ECDSA".toList
  else if alg = "Ed25519".toList ∨ alg = "Ed25519ph".toList ∨ alg = "Ed448".toList then
    .ok "EdDSA".toList
  else if alg = "SHA-224".toList ∨ alg = "SHA-256".toList ∨ alg = "SHA-384".toList ∨
      alg = "SHA-512".toList then .ok "SHA2".toList
  else if alg = "SHA3-224".toList ∨ alg = "SHA3-256".toList ∨ alg = "SHA3-384".toList ∨
      alg = "SHA3-512".toList ∨ alg = "SHAKE128".toList ∨ alg = "SHAKE256".toList then
    .ok "SHA3".toList
  else .error .unsupportedAlg

/-- `HashAlg` (alg.js). -/
def HashAlg (alg : List Char) : Except Err (List Char) :=
  if alg = "SHA-224".toList ∨ alg = "ES224".toList then .ok "SHA-224".toList
  else if alg = "SHA-256".toList ∨ alg = "ES256".toList then .ok "SHA-256".toList
  else if alg = "SHA-384".toList ∨ alg = "ES384".toList then .ok "SHA-384".toList
  else if alg = "SHA-512".toList ∨ alg = "ES512".toList ∨ alg = "Ed25519".toList ∨
      alg = "Ed25519ph".toList then .ok "SHA-512".toList
  else if alg = "SHAKE128".toList then .ok "SHAKE128".toList
  else if alg = "SHAKE256".toList ∨ alg = "Ed448".toList then .ok "SHAKE256".toList
  else if alg = "SHA3-224".toList then .ok "SHA3-224".toList
  else if alg = "SHA3-256".toList then .ok "SHA3-256".toList
  else if alg = "SHA3-384".toList then .ok "SHA3-384".toList
  else if alg = "SHA3-512".toList then .ok "SHA3-512".toList
  else .error .unsupportedAlg

/-- `SigSize` (alg.js): signature size in bytes. -/
def SigSize (alg : List Char) : Except Err Nat :=
  if alg = "ES224".toList then .ok 56
  else if alg = "ES256".toList ∨ alg = "Ed25519".toList ∨ alg = "Ed25519ph".toList then
    .ok 64
  else if alg = "ES384".toList then .ok 96
  else if alg = "Ed448".toList then .ok 114
  else if alg = "ES512".toList then .ok 132
  else .error .unsupportedAlg

/-- `XSize` (alg.js): public-component size in bytes. -/
def XSize (alg : List Char) : Except Err Nat :=
  if alg = "Ed25519".toList ∨ alg = "Ed25519ph".toList then .ok 32
  else if alg = "ES224".toList then .ok 56
  else if alg = "Ed448".toList then .ok 57
  else if alg = "ES256".toList then .ok 64
  else if alg = "ES384".toList then .ok 96
  else if alg = "ES512".toList then .ok 132
  else .error .unsupportedAlg

/-- `Curve` (alg.js). -/
def Curve (alg : List Char) : Except Err (List Char) :=
  if alg = "ES224".toList then .ok "P-224".toList
  else if alg = "ES256".toList then .ok "P-256".toList
  else if alg = "ES384".toList then .ok "P-384".toList
  else if alg = "ES512".toList then .ok "P-521".toList
  else if alg = "Ed25519".toList ∨ alg = "Ed25519ph".toList then .ok "Curve25519".toList
  else if alg = "Ed448".toList then .ok "Curve448".toList
  else .error .unsupportedAlg

/-- The exact group order of curve P-224 (the `order` table, part_008). -/
def orderES224 : Nat := 0xFFFFFFFFFFFFFFFFFFFFFFFFFFFF16A2E0B8F03E13DD29455C5C2A3D

/-- The exact group order of curve P-256. -/
def orderES256 : Nat := 0xFFFFFFFF00000000FFFFFFFFFFFFFFFFBCE6FAADA7179E84F3B9CAC2FC632551

/-- The exact group order of curve P-384. -/
def orderES384 : Nat :=
  0xFFFFFFFFFFFFFFFFFFFFFFFFFFFFFFFFFFFFFFFFFFFFFFFFC7634D81F4372DDF581A0DB248B0A77AECEC196ACCC52973

/-- The exact group order of curve P-521. -/
def orderES512 : Nat :=
  0x1FFFFFFFFFFFFFFFFFFFFFFFFFFFFFFFFFFFFFFFFFFFFFFFFFFFFFFFFFFFFFFFFFA51868783BF2F966B7FCC0148F709A5D03BB5C9B8899C47AEBB6FB71E91386409

/-- `CurveOrder` (part_008): the curve's exact group order. -/
def CurveOrder (alg : List Char) : Except Err Nat :=
  if alg = "ES224".toList then .ok orderES224
  else if alg = "ES256".toList then .ok orderES256
  else if alg = "ES384".toList then .ok orderES384
  else if alg = "ES512".toList then .ok orderES512
  else .error .unsupportedAlg

/-- `CurveHalfOrder` (part_008): the order shifted right by one bit. -/
def CurveHalfOrder (alg : List Char) : Except Err Nat :=
  if alg = "ES224".toList then .ok (orderES224 >>> 1)
  else if alg = "ES256".toList then .ok (orderES256 >>> 1)
  else if alg = "ES384".toList then .ok (orderES384 >>> 1)
  else if alg = "ES512".toList then .ok (orderES512 >>> 1)
  else .error .unsupportedAlg

/-! ## Coze keys, cozies, and the platform boundary -/

/-- A Coze key (key.js JSON shape). `rvk` may hold a number, boolean or
string, so it carries a full `Val`. -/
structure Key where
  alg : Option (List Char) := none
  iat : Option Int := none
  kid : Option (List Char) := none
  tmb : Option (List Char) := none
  x : Option (List Char) := none
  d : Option (List Char) := none
  rvk : Option Val := none
deriving DecidableEq

/-- A coze envelope (coze.js JSON shape). -/
structure Coze where
  pay : JsObj := []
  sig : Option (List Char) := none
  can : Option (List (List Char)) := none
  cad : Option (List Char) := none
  czd : Option (List Char) := none
  key : Option Key := none
deriving DecidableEq

/-- The trusted platform cryptography (`crypto.subtle`), out of scope for
the library: digesting, raw signing and raw verification over an imported
key. The library only adapts inputs and outputs of these primitives. -/
structure Platform where
  digest : List Char → List Char → List Byte
  sign : Key → List Char → List Byte
  verify : Key → List Char → List Byte → Bool

/-- The key object as a JS first-level object (present fields only), for
canonicalization during thumbprint computation. -/
def keyToObj (k : Key) : JsObj :=
  (match k.alg with | some a => [("alg".toList, Val.vstr a)] | none => []) ++
  (match k.iat with | some t => [("iat".toList, Val.vint t)] | none => []) ++
  (match k.kid with | some s => [("kid".toList, Val.vstr s)] | none => []) ++
  (match k.tmb with | some s => [("tmb".toList, Val.vstr s)] | none => []) ++
  (match k.x with | some s => [("x".toList, Val.vstr s)] | none => []) ++
  (match k.d with | some s => [("d".toList, Val.vstr s)] | none => []) ++
  (match k.rvk with | some v => [("rvk".toList, v)] | none => [])

/-- `IsRevoked` (key.js): false when `rvk` is empty or `parseInt(rvk)` is
not greater than zero. -/
def IsRevoked (cozeKey : Key) : Bool :=
  let rvk := fieldVal cozeKey.rvk
  if isEmptyV rvk || !(match parseIntV rvk with | some n => decide (0 < n) | none => false)
  then false else true

/-! ## Canonicalizer (canon.js) -/

/-- `Canon` (canon.js): `Object.keys(obj)`, the first-level keys in the JS
own-property enumeration order. -/
def Canon (obj : JsObj) : List (List Char) := (enumEntries obj).map Prod.fst

/-- `Canonical` (canon.js): returns the object unchanged for an empty (or
absent) canon; otherwise builds a fresh object by assigning each listed
field, in canon order, with its value read from the input object. -/
def Canonical (object : JsObj) (can : List (List Char)) : JsObj :=
  if can.isEmpty then object
  else can.foldl (fun obj e => jsSet obj e (jsGet object e)) []

/-- `CanonicalS` (canon.js): `JSON.stringify(Canonical(obj, can))`. -/
def CanonicalS (obj : JsObj) (can : List (List Char)) : List Char :=
  stringifyObj (Canonical obj can)

/-- `CanonicalHash` (canon.js): digest of the canonical serialization.
Fails when the hash name is empty. -/
def CanonicalHash (pf : Platform) (input : JsObj) (hash : List Char)
    (can : List (List Char)) : Except Err (List Byte) :=
  if isEmptyV (.vstr hash) then .error .hashNotGiven
  else .ok (pf.digest hash (CanonicalS input can))

/-- `CanonicalHash64` (canon.js): the b64ut of `CanonicalHash`. -/
def CanonicalHash64 (pf : Platform) (obj : JsObj) (hash : List Char)
    (can : List (List Char)) : Except Err (List Char) := do
  let dig ← CanonicalHash pf obj hash can
  .ok (ArrayBufferTo64ut dig)

/-! ## Key manager (key.js) -/

/-- `TmbCanon` (key.js): the thumbprint canon. -/
def TmbCanon : List (List Char) := ["alg".toList, "x".toList]

/-- `Thumbprint` (key.js): fails on empty `alg` or `x`; otherwise the b64ut
digest of the canonical form of the key under `TmbCanon`, using the hash of
the key's algorithm. -/
def Thumbprint (pf : Platform) (cozeKey : Key) : Except Err (List Char) :=
  if isEmptyOS cozeKey.alg || isEmptyOS cozeKey.x then .error .thumbprintEmptyAlgOrX
  else do
    let h ← HashAlg (cozeKey.alg.getD [])
    CanonicalHash64 pf (keyToObj cozeKey) h TmbCanon

/-! ## Cryptographic adapter (cryptokey.js) -/

/-- `IsLowS` (cryptokey.js): `CurveHalfOrder(alg) > s`. -/
def IsLowS (alg : List Char) (s : Nat) : Except Err Bool := do
  let h ← CurveHalfOrder alg
  .ok (decide (h > s))

/-- `toLowS` (cryptokey.js): replace a non-low `s` by `CurveOrder(alg) - s`. -/
def toLowS (alg : List Char) (s : Nat) : Except Err Nat := do
  let low ← IsLowS alg s
  if !low then do
    let o ← CurveOrder alg
    .ok (o - s)
  else .ok s

/-- `sigToS` (cryptokey.js): the big-endian integer in the second half of
the fixed-width signature. -/
def sigToS (alg : List Char) (sig : List Byte) : Except Err Nat := do
  let size ← SigSize alg
  .ok (arrayBufferToBigInt (sig.drop (size / 2)))

/-- `IsSigLowS` (cryptokey.js). -/
def IsSigLowS (alg : List Char) (sig : List Byte) : Except Err Bool := do
  let s ← sigToS alg sig
  IsLowS alg s

/-- `sigToLowSArrayBuffer` (cryptokey.js): low-S normalization of a raw
signature buffer; R is kept, S is normalized and re-encoded at the same
fixed width. -/
def sigToLowSArrayBuffer (alg : List Char) (sig : List Byte) :
    Except Err (List Byte) := do
  let size ← SigSize alg
  let half := size / 2
  let r := sig.take half
  let s := sig.drop half
  let bigIntNormS ← toLowS alg (arrayBufferToBigInt s)
  .ok (r ++ bigIntToArrayBuffer half bigIntNormS)

/-- `SigToLowS` (cryptokey.js): the b64ut round trip through
`sigToLowSArrayBuffer`. -/
def SigToLowS (alg : List Char) (sig : List Char) : Except Err (List Char) := do
  let ab ← B64uToArrayBuffer sig
  let lowSSigAB ← sigToLowSArrayBuffer alg ab
  .ok (ArrayBufferTo64ut lowSSigAB)

/-- `CryptoKey.FromCozeKey` (cryptokey.js): rejects non-ECDSA genera,
decodes the stored `x` (which must be canonical b64) and imports the
platform key (the import itself is the trusted platform's job). -/
def FromCozeKey (cozeKey : Key) (_onlyPublic : Bool) : Except Err Unit := do
  let g ← Genus (cozeKey.alg.getD [])
  if g ≠ "ECDSA".toList then .error .unsupportedAlg
  else do
    let _crv ← Curve (cozeKey.alg.getD [])
    let _half ← XSize (cozeKey.alg.getD [])
    match cozeKey.x with
    | none => .error .typeError
    | some xs => do
        let _xyab ← B64ToUint8Array xs
        .ok ()

/-- `CryptoKey.SignBuffer` (cryptokey.js): platform sign, then low-S
normalization of the raw signature. -/
def SignBuffer (pf : Platform) (cozeKey : Key) (arrayBuffer : List Char) :
    Except Err (List Byte) := do
  let sig := pf.sign cozeKey arrayBuffer
  sigToLowSArrayBuffer (cozeKey.alg.getD []) sig

/-- `CryptoKey.SignBufferB64` (cryptokey.js). -/
def SignBufferB64 (pf : Platform) (cozeKey : Key) (arrayBuffer : List Char) :
    Except Err (List Char) := do
  let sig ← SignBuffer pf cozeKey arrayBuffer
  .ok (ArrayBufferTo64ut sig)

/-- `CryptoKey.VerifyArrayBuffer` (cryptokey.js), instrumented: the first
component is the returned boolean, the second records whether the platform
`crypto.subtle.verify` primitive was invoked. A non-low-S signature returns
false before the platform call. -/
def VerifyArrayBuffer (pf : Platform) (alg : List Char) (cozeKey : Key)
    (msg : List Char) (sig : List Byte) : Except Err (Bool × Bool) := do
  let low ← IsSigLowS alg sig
  if !low then .ok (false, false)
  else .ok (pf.verify cozeKey msg sig, true)

/-- `CryptoKey.VerifyMsg` (cryptokey.js): decode the b64 signature and
delegate to `VerifyArrayBuffer`. -/
def VerifyMsg (pf : Platform) (alg : List Char) (cozeKey : Key)
    (msg : List Char) (sig : List Char) : Except Err (Bool × Bool) := do
  let sigBytes ← B64uToArrayBuffer sig
  VerifyArrayBuffer pf alg cozeKey msg sigBytes

/-! ## Envelope engine (coze.js) and revocation (key.js) -/

/-- `SignPay` (coze.js): import the private key and sign the serialized
pay, returning the b64ut signature. -/
def SignPay (pf : Platform) (pay : List Char) (cozeKey : Key) :
    Except Err (List Char) := do
  let _ ← FromCozeKey cozeKey false
  SignBufferB64 pf cozeKey pay

/-- `Sign` (coze.js): refuses revoked keys; then unconditionally sets
`pay.alg`, `pay.tmb` (recomputed) and `pay.iat`; canonicalizes the pay if a
canon is given; signs the serialized pay and stores the signature. The
mutated coze and the (unmutated) key are returned to state the in-place
frame effect. -/
def Sign (pf : Platform) (now : Int) (coze : Coze) (cozeKey : Key)
    (canon : List (List Char)) : Except Err (Coze × Key) :=
  if IsRevoked cozeKey then .error .revokedKey
  else do
    let pay := jsSet coze.pay "alg".toList (strFieldVal cozeKey.alg)
    let tmb ← Thumbprint pf cozeKey
    let pay := jsSet pay "tmb".toList (.vstr tmb)
    let pay := jsSet pay "iat".toList (.vint now)
    let pay := if !canon.isEmpty then Canonical pay canon else pay
    let sig ← SignPay pf (stringifyObj pay) cozeKey
    .ok ({ coze with pay := pay, sig := some sig }, cozeKey)

/-- `SignCozeRaw` (coze.js): refuses revoked keys; fails on a mismatch
between a non-empty `pay.alg` (resp. `pay.tmb`) and the key's `alg`
(resp. stored `tmb`); does not touch `alg`, `tmb`, `iat`; canonicalizes if
a canon is given, signs and stores the signature. -/
def SignCozeRaw (pf : Platform) (coze : Coze) (cozeKey : Key)
    (canon : List (List Char)) : Except Err (Coze × Key) :=
  if IsRevoked cozeKey then .error .revokedKey
  else if !isEmptyV (jsGet coze.pay "alg".toList) &&
      !valEqOptStr (jsGet coze.pay "alg".toList) cozeKey.alg then .error .algMismatch
  else if !isEmptyV (jsGet coze.pay "tmb".toList) &&
      !valEqOptStr (jsGet coze.pay "tmb".toList) cozeKey.tmb then .error .tmbMismatch
  else do
    let pay := if !canon.isEmpty then Canonical coze.pay canon else coze.pay
    let sig ← SignPay pf (stringifyObj pay) cozeKey
    .ok ({ coze with pay := pay, sig := some sig }, cozeKey)

/-- `SignCoze` (the conditional-mode variant of the signing entry point):
refuses revoked keys; populates `pay.alg` and `pay.tmb` only when empty;
fails on a mismatch between `pay.alg` and the key's `alg`, or between
`pay.tmb` and the key's stored `tmb`; then sets `iat`, canonicalizes if a
canon is given, signs and stores the signature. -/
def SignCoze (pf : Platform) (now : Int) (coze : Coze) (cozeKey : Key)
    (canon : List (List Char)) : Except Err (Coze × Key) :=
  if IsRevoked cozeKey then .error .revokedKey
  else do
    let pay ←
      if isEmptyV (jsGet coze.pay "alg".toList) then
        pure (jsSet coze.pay "alg".toList (strFieldVal cozeKey.alg))
      else pure coze.pay
    let pay ←
      if isEmptyV (jsGet pay "tmb".toList) then do
        let tmb ← Thumbprint pf cozeKey
        pure (jsSet pay "tmb".toList (.vstr tmb))
      else pure pay
    if !valEqOptStr (jsGet pay "alg".toList) cozeKey.alg then .error .algMismatch
    else if !valEqOptStr (jsGet pay "tmb".toList) cozeKey.tmb then .error .tmbMismatch
    else do
      let pay := jsSet pay "iat".toList (.vint now)
      let pay := if !canon.isEmpty then Canonical pay canon else pay
      let sig ← SignPay pf (stringifyObj pay) cozeKey
      .ok ({ coze with pay := pay, sig := some sig }, cozeKey)

/-- `VerifyPay` (coze.js): import the public key and verify; the returned
pair is the instrumented result of `VerifyMsg`. -/
def VerifyPay (pf : Platform) (pay : List Char) (cozekey : Key)
    (sig : List Char) : Except Err (Bool × Bool) := do
  let _ ← FromCozeKey cozekey true
  VerifyMsg pf (cozekey.alg.getD []) cozekey pay sig

/-- `VerifyCoze` (coze.js `Verify`, the envelope-level verification):
fails on `pay.alg` or `pay.tmb` mismatch with the key; otherwise verifies
the serialized pay against `coze.sig` and returns the boolean. -/
def VerifyCoze (pf : Platform) (coze : Coze) (cozeKey : Key) :
    Except Err Bool :=
  if !isEmptyV (jsGet coze.pay "alg".toList) &&
      !valEqOptStr (jsGet coze.pay "alg".toList) cozeKey.alg then .error .algMismatch
  else if !isEmptyV (jsGet coze.pay "tmb".toList) &&
      !valEqOptStr (jsGet coze.pay "tmb".toList) cozeKey.tmb then .error .tmbMismatch
  else
    match coze.sig with
    | none => .error .typeError
    | some sig => do
        let r ← VerifyPay pf (stringifyObj coze.pay) cozeKey sig
        .ok r.1

/-- An element of a batch: either a coze, or an object whose non-empty
`coze` field holds the coze (one level of encapsulation). -/
inductive CozeItem where
  | plain (c : Coze)
  | encapsulated (c : Coze)
deriving DecidableEq

/-- The unwrapping done by the batch loop. -/
def itemCoze : CozeItem → Coze
  | .plain c => c
  | .encapsulated c => c

/-- `VerifiedArray` (standard/coze_array.js). -/
structure VerifiedArray where
  VerifiedAll : Bool
  VerifiedCount : Nat
  FailedCount : Nat
  FailedCoze : List Coze
deriving DecidableEq

/-- `VerifyCozeArray` (standard/coze_array.js): verifies each element
(after unwrapping), counts passes and failures, collects failed cozies,
and sets `VerifiedAll` at the end iff nothing failed. -/
def VerifyCozeArray (pf : Platform) (coze : List CozeItem) (cozeKey : Key) :
    Except Err VerifiedArray := do
  let verifiedObj : VerifiedArray :=
    { VerifiedAll := false, VerifiedCount := 0, FailedCount := 0, FailedCoze := [] }
  let verifiedObj ← coze.foldlM
    (fun vo c0 => do
      let c := itemCoze c0
      let valid ← VerifyCoze pf c cozeKey
      if valid then pure { vo with VerifiedCount := vo.VerifiedCount + 1 }
      else pure { vo with FailedCount := vo.FailedCount + 1,
                          FailedCoze := vo.FailedCoze ++ [c] })
    verifiedObj
  if verifiedObj.FailedCount = 0 then pure { verifiedObj with VerifiedAll := true }
  else pure verifiedObj

/-- `Revoke` (key.js): builds a pay with an optional `msg` and `rvk` set to
the current time, deletes the key's own `rvk` so the signing step is not
blocked, signs with `Sign`, then restores the previous `rvk` if there was
one and otherwise installs the new one. -/
def Revoke (pf : Platform) (now : Int) (cozeKey : Key) (msg : Option (List Char)) :
    Except Err (Coze × Key) :=
  if cozeKey = {} then .error .keyNotSet
  else do
    let pay : JsObj := match msg with
      | some m => [("msg".toList, Val.vstr m)]
      | none => []
    let pay := jsSet pay "rvk".toList (.vint now)
    let cleared : Key := { cozeKey with rvk := none }
    let (coze, k) ← Sign pf now { pay := pay } cleared []
    let k :=
      match cozeKey.rvk with
      | some prevRvk => { k with rvk := some prevRvk }
      | none => { k with rvk := some (jsGet coze.pay "rvk".toList) }
    .ok (coze, k)

/-! ## Properties of property read/write and canonicalization -/

theorem jsGet_jsSet (o : JsObj) (k q : List Char) (v : Val) :
    jsGet (jsSet o k v) q = if q = k then v else jsGet o q := by
  induction o with
  | nil =>
      simp only [jsSet, jsGet]
      by_cases h : q = k
      · subst h; simp
      · have hk : ¬(k = q) := fun hk => h hk.symm
        simp [h, hk]
  | cons p t ih =>
      obtain ⟨k1, v1⟩ := p
      simp only [jsSet]
      by_cases h1 : k1 = k
      · subst h1
        simp only [if_pos rfl, jsGet]
        by_cases h : q = k1
        · subst h; simp
        · have hk : ¬(k1 = q) := fun hk => h hk.symm
          simp [h, hk]
      · simp only [if_neg h1, jsGet, ih]
        by_cases h : k1 = q
        · subst h
          simp [h1]
        · simp [h]

/-- Key-list update done by a JS property write: keep the list when the key
is present, append otherwise. -/
def insertKey (l : List (List Char)) (k : List Char) : List (List Char) :=
  if k ∈ l then l else l ++ [k]

/-- The distinct field names of a canon, first occurrences kept, in order:
the keys a JS object ends up with after assigning the canon's fields in
order. -/
def dedupFirst (can : List (List Char)) : List (List Char) :=
  can.foldl insertKey []

theorem keys_jsSet (o : JsObj) (k : List Char) (v : Val) :
    (jsSet o k v).map Prod.fst = insertKey (o.map Prod.fst) k := by
  induction o with
  | nil => simp [jsSet, insertKey]
  | cons p t ih =>
      obtain ⟨k1, v1⟩ := p
      by_cases h1 : k1 = k
      · subst h1
        simp only [jsSet, eq_self_iff_true, if_true, List.map_cons, insertKey]
        rw [if_pos (List.mem_cons_self _ _)]
      · have hk : ¬(k = k1) := fun h => h1 h.symm
        simp only [jsSet, if_neg h1, List.map_cons, ih, insertKey]
        by_cases hmem : k ∈ t.map Prod.fst
        · rw [if_pos hmem, if_pos (List.mem_cons_of_mem _ hmem)]
        · rw [if_neg hmem, if_neg (by simp [hk, hmem]), List.cons_append]

theorem keys_canonical_fold (can : List (List Char)) (acc : JsObj) (g : List Char → Val) :
    ((can.foldl (fun o e => jsSet o e (g e)) acc).map Prod.fst) =
      can.foldl insertKey (acc.map Prod.fst) := by
  induction can generalizing acc with
  | nil => rfl
  | cons e t ih =>
      rw [List.foldl_cons, List.foldl_cons, ih, keys_jsSet]

theorem jsGet_canonical_fold (can : List (List Char)) (acc object : JsObj) (q : List Char) :
    jsGet (can.foldl (fun o e => jsSet o e (jsGet object e)) acc) q =
      if q ∈ can then jsGet object q else jsGet acc q := by
  induction can generalizing acc with
  | nil => simp
  | cons e t ih =>
      simp only [List.foldl_cons, ih, jsGet_jsSet]
      by_cases hmem : q ∈ t
      · simp [hmem]
      · by_cases he : q = e
        · simp [hmem, he]
        · simp [hmem, he]

theorem canonical_fold_congr (can : List (List Char)) (o1 o2 : JsObj)
    (h : ∀ q, jsGet o1 q = jsGet o2 q) :
    can.foldl (fun o e => jsSet o e (jsGet o1 e)) [] =
      can.foldl (fun o e => jsSet o e (jsGet o2 e)) [] := by
  have hf : (fun (o : JsObj) e => jsSet o e (jsGet o1 e)) =
      (fun (o : JsObj) e => jsSet o e (jsGet o2 e)) := by
    funext o e
    rw [h e]
  rw [hf]

theorem map_fst_filter (o : JsObj) (q : List Char → Bool) :
    (o.filter (fun p => q p.1)).map Prod.fst = (o.map Prod.fst).filter q := by
  induction o with
  | nil => rfl
  | cons p t ih =>
      obtain ⟨k1, v1⟩ := p
      by_cases h : q k1 = true
      · simp [List.filter_cons, h, ih]
      · simp [List.filter_cons, h, ih]

theorem map_fst_insertIdxEntry (p : List Char × Val) (l : JsObj) :
    (insertIdxEntry p l).map Prod.fst = insertIdxKey p.1 (l.map Prod.fst) := by
  induction l with
  | nil => rfl
  | cons q t ih =>
      by_cases h : digitsVal p.1 < digitsVal q.1
      · simp [insertIdxEntry, insertIdxKey, h]
      · simp [insertIdxEntry, insertIdxKey, h, ih]

theorem map_fst_sortIdxEntries (l : JsObj) :
    (sortIdxEntries l).map Prod.fst = sortIdxKeys (l.map Prod.fst) := by
  induction l with
  | nil => rfl
  | cons p t ih => simp [sortIdxEntries, sortIdxKeys, map_fst_insertIdxEntry, ih]

theorem enumEntries_map_fst (o : JsObj) :
    (enumEntries o).map Prod.fst = enumKeys (o.map Prod.fst) := by
  rw [enumEntries, enumKeys, List.map_append, map_fst_sortIdxEntries,
    map_fst_filter o isArrayIndex, map_fst_filter o (fun k => !isArrayIndex k)]

theorem mem_foldl_insertKey (can : List (List Char)) (acc : List (List Char))
    (e : List Char) (h : e ∈ can.foldl insertKey acc) : e ∈ acc ∨ e ∈ can := by
  induction can generalizing acc with
  | nil => exact Or.inl h
  | cons k t ih =>
      rcases ih (insertKey acc k) (by simpa using h) with hacc | ht
      · rw [insertKey] at hacc
        by_cases hk : k ∈ acc
        · rw [if_pos hk] at hacc
          exact Or.inl hacc
        · rw [if_neg hk] at hacc
          rcases List.mem_append.mp hacc with h1 | h1
          · exact Or.inl h1
          · simp only [List.mem_singleton] at h1
            exact Or.inr (by simp [h1])
      · exact Or.inr (by simp [ht])

theorem mem_dedupFirst (can : List (List Char)) (e : List Char)
    (h : e ∈ dedupFirst can) : e ∈ can := by
  rcases mem_foldl_insertKey can [] e h with h1 | h1
  · cases h1
  · exact h1

theorem enumKeys_no_index (l : List (List Char))
    (h : ∀ e ∈ l, isArrayIndex e = false) : enumKeys l = l := by
  rw [enumKeys]
  have h1 : l.filter isArrayIndex = [] := by
    rw [List.filter_eq_nil_iff]
    intro a ha
    simp [h a ha]
  have h2 : l.filter (fun k => !isArrayIndex k) = l := by
    rw [List.filter_eq_self]
    intro a ha
    simp [h a ha]
  rw [h1, h2]
  rfl

/-- Counterexample to C1 as stated: with the canon ["b", "1"], the built
object enumerates (and serializes) the array-index key "1" first, so the
field order is not the canon's order. -/
theorem C1_canonical_field_selection_counterexample :
    Canon (Canonical [("b".toList, Val.vint 2), ("1".toList, Val.vint 1)]
        ["b".toList, "1".toList]) = ["1".toList, "b".toList] ∧
    (["1".toList, "b".toList] : List (List Char)) ≠ ["b".toList, "1".toList] ∧
    CanonicalS [("b".toList, Val.vint 2), ("1".toList, Val.vint 1)]
        ["b".toList, "1".toList] =
      lbrace :: ("\"1\":1,\"b\":2".toList ++ [rbrace]) := by
  decide

/-- C1 (amended): with a non-empty canon, `Canonical` returns an object
whose properties are created in canon order (first occurrences) and whose
fields hold exactly the values read as-is from the input; the observable
field order (`Object.keys`, `JSON.stringify`) is the canon's order except
that integer-like field names (array indices) are enumerated first in
ascending numeric order - in particular it is exactly the canon's order
whenever the canon contains no integer-like name. With an empty or absent
canon the input is returned unchanged, and `CanonicalS` on logically equal
inputs (pointwise-equal property reads, regardless of insertion order)
with the same canon is identical. -/
theorem C1_canonical_field_selection :
    (∀ object : JsObj, Canonical object [] = object) ∧
    (∀ (object : JsObj) (can : List (List Char)), can ≠ [] →
      (Canonical object can).map Prod.fst = dedupFirst can ∧
      Canon (Canonical object can) = enumKeys (dedupFirst can) ∧
      ∀ e ∈ can, jsGet (Canonical object can) e = jsGet object e) ∧
    (∀ (object : JsObj) (can : List (List Char)), can ≠ [] →
      (∀ e ∈ can, isArrayIndex e = false) →
      Canon (Canonical object can) = dedupFirst can) ∧
    (∀ (o1 o2 : JsObj) (can : List (List Char)), can ≠ [] →
      (∀ q, jsGet o1 q = jsGet o2 q) →
      CanonicalS o1 can = CanonicalS o2 can) := by
  have hkeys : ∀ (object : JsObj) (can : List (List Char)), can ≠ [] →
      (Canonical object can).map Prod.fst = dedupFirst can := by
    intro object can hcan
    have hne : can.isEmpty = false := by
      cases can with
      | nil => exact absurd rfl hcan
      | cons e t => rfl
    rw [Canonical, hne]
    simp only [Bool.false_eq_true, if_false]
    exact keys_canonical_fold can [] _
  refine ⟨fun object => rfl, fun object can hcan => ?_, fun object can hcan hidx => ?_,
    fun o1 o2 can hcan h => ?_⟩
  · refine ⟨hkeys object can hcan, ?_, ?_⟩
    · rw [Canon, enumEntries_map_fst, hkeys object can hcan]
    · intro e he
      have hne : can.isEmpty = false := by
        cases can with
        | nil => exact absurd rfl hcan
        | cons e2 t => rfl
      rw [Canonical, hne]
      simp only [Bool.false_eq_true, if_false]
      rw [jsGet_canonical_fold]
      simp [he]
  · rw [Canon, enumEntries_map_fst, hkeys object can hcan]
    exact enumKeys_no_index (dedupFirst can)
      (fun e he => hidx e (mem_dedupFirst can e he))
  · have hne : can.isEmpty = false := by
      cases can with
      | nil => exact absurd rfl hcan
      | cons e t => rfl
    rw [CanonicalS, CanonicalS, Canonical, Canonical, hne]
    simp only [Bool.false_eq_true, if_false]
    rw [canonical_fold_congr can o1 o2 h]

/-- Witness for C1 (amended) at concrete inputs: canon-order enumeration
for a canon without integer-like names, and insertion-order independence
of the serialization. -/
theorem C1_canonical_field_selection_witness :
    Canon (Canonical [("b".toList, Val.vint 2), ("a".toList, Val.vint 1)]
        ["a".toList, "b".toList]) = dedupFirst ["a".toList, "b".toList] ∧
    CanonicalS [("b".toList, Val.vint 2), ("a".toList, Val.vint 1)]
        ["a".toList, "b".toList] =
      CanonicalS [("a".toList, Val.vint 1), ("b".toList, Val.vint 2)]
        ["a".toList, "b".toList] := by
  constructor
  · exact C1_canonical_field_selection.2.2.1 _ ["a".toList, "b".toList]
      (by decide) (by decide)
  · refine C1_canonical_field_selection.2.2.2 _ _ _ (by decide) ?_
    intro q
    by_cases h1 : (['a'] : List Char) = q
    · rw [← h1]; decide
    · by_cases h2 : (['b'] : List Char) = q
      · rw [← h2]; decide
      · simp [jsGet, h1, h2]

/-! ## Low-S properties (claims on cryptokey.js) -/

deriving instance DecidableEq for Except

theorem bind_ok_E {α β : Type} (a : α) (f : α → Except Err β) :
    (Except.ok a >>= f : Except Err β) = f a := rfl

theorem bind_err_E {α β : Type} (e : Err) (f : α → Except Err β) :
    (Except.error e >>= f : Except Err β) = Except.error e := rfl

theorem shiftRight_one_div (n : Nat) : n >>> 1 = n / 2 := by
  rw [Nat.shiftRight_eq_div_pow]

/-- Shared core of the substitution argument, with the per-curve constants
supplied as hypotheses. -/
theorem lowS_substitution_core (pf : Platform) (alg : List Char) (k : Key)
    (msg : List Char) (size n : Nat)
    (hsz : SigSize alg = .ok size) (hn : CurveOrder alg = .ok n)
    (hh : CurveHalfOrder alg = .ok (n >>> 1))
    (hfit : n < 256 ^ (size / 2))
    (r sBytes : List Byte) (hr : r.length = size / 2) (hs : sBytes.length = size / 2)
    (hlow : arrayBufferToBigInt sBytes < n >>> 1)
    (hverify : pf.verify k msg (r ++ sBytes) = true) :
    VerifyArrayBuffer pf alg k msg
        (r ++ bigIntToArrayBuffer (size / 2) (n - arrayBufferToBigInt sBytes)) =
      .ok (false, false) ∧
    sigToLowSArrayBuffer alg
        (r ++ bigIntToArrayBuffer (size / 2) (n - arrayBufferToBigInt sBytes)) =
      .ok (r ++ sBytes) ∧
    VerifyArrayBuffer pf alg k msg (r ++ sBytes) = .ok (true, true) := by
  have hsr : n >>> 1 = n / 2 := shiftRight_one_div n
  have hlow2 : arrayBufferToBigInt sBytes < n / 2 := hsr ▸ hlow
  have hdrop1 : (r ++ bigIntToArrayBuffer (size / 2)
      (n - arrayBufferToBigInt sBytes)).drop (size / 2) =
      bigIntToArrayBuffer (size / 2) (n - arrayBufferToBigInt sBytes) := by
    rw [← hr]; exact List.drop_left _ _
  have htake1 : (r ++ bigIntToArrayBuffer (size / 2)
      (n - arrayBufferToBigInt sBytes)).take (size / 2) = r := by
    rw [← hr]; exact List.take_left _ _
  have hdrop2 : (r ++ sBytes).drop (size / 2) = sBytes := by
    rw [← hr]; exact List.drop_left _ _
  have hval : arrayBufferToBigInt (bigIntToArrayBuffer (size / 2)
      (n - arrayBufferToBigInt sBytes)) = n - arrayBufferToBigInt sBytes :=
    arrayBufferToBigInt_bigIntToArrayBuffer _ _ (by omega)
  have hnotlow : ¬(n >>> 1 > n - arrayBufferToBigInt sBytes) := by
    rw [hsr]; omega
  have hrest : n - (n - arrayBufferToBigInt sBytes) = arrayBufferToBigInt sBytes := by
    omega
  have hback : bigIntToArrayBuffer (size / 2) (arrayBufferToBigInt sBytes) = sBytes := by
    rw [← hs]; exact bigIntToArrayBuffer_arrayBufferToBigInt sBytes
  refine ⟨?_, ?_, ?_⟩
  · simp only [VerifyArrayBuffer, IsSigLowS, sigToS, IsLowS, hsz, bind_ok_E, hdrop1,
      hval, hh, decide_eq_false hnotlow]
    rfl
  · simp only [sigToLowSArrayBuffer, toLowS, IsLowS, hsz, bind_ok_E, htake1, hdrop1,
      hval, hh, hn, decide_eq_false hnotlow, Bool.not_false, if_true, hrest, hback]
  · simp only [VerifyArrayBuffer, IsSigLowS, sigToS, IsLowS, hsz, bind_ok_E, hdrop2,
      hh, decide_eq_true hlow]
    simp [hverify]

/-- C2: for every ECDSA algorithm the low-S predicate used by verification
holds iff the S component is below half the exact group order (integer
half), and verification of a non-low-S signature returns false without
invoking the platform verify primitive (the second component of the
instrumented result records the invocation). -/
theorem C2_low_s_gate (alg : List Char)
    (halg : alg = "ES224".toList ∨ alg = "ES256".toList ∨ alg = "ES384".toList ∨
      alg = "ES512".toList) :
    (∀ n s, CurveOrder alg = .ok n → (IsLowS alg s = .ok true ↔ s < n / 2)) ∧
    (∀ (pf : Platform) (k : Key) (msg : List Char) (sig : List Byte),
      IsSigLowS alg sig = .ok false →
      VerifyArrayBuffer pf alg k msg sig = .ok (false, false)) ∧
    (∀ (pf : Platform) (k : Key) (msg : List Char) (sig : List Char)
        (sigBytes : List Byte),
      B64uToArrayBuffer sig = .ok sigBytes →
      IsSigLowS alg sigBytes = .ok false →
      VerifyMsg pf alg k msg sig = .ok (false, false)) := by
  refine ⟨?_, ?_, ?_⟩
  · intro n s hn
    have hh : CurveHalfOrder alg = .ok (n >>> 1) := by
      rcases halg with h | h | h | h <;> subst h
      · rw [show CurveOrder "ES224".toList = Except.ok orderES224 from by decide] at hn
        simp only [Except.ok.injEq] at hn
        subst hn; decide
      · rw [show CurveOrder "ES256".toList = Except.ok orderES256 from by decide] at hn
        simp only [Except.ok.injEq] at hn
        subst hn; decide
      · rw [show CurveOrder "ES384".toList = Except.ok orderES384 from by decide] at hn
        simp only [Except.ok.injEq] at hn
        subst hn; decide
      · rw [show CurveOrder "ES512".toList = Except.ok orderES512 from by decide] at hn
        simp only [Except.ok.injEq] at hn
        subst hn; decide
    simp only [IsLowS, hh, bind_ok_E, Except.ok.injEq, decide_eq_true_eq,
      shiftRight_one_div, gt_iff_lt]
  · intro pf k msg sig hlow
    simp only [VerifyArrayBuffer, hlow, bind_ok_E]
    rfl
  · intro pf k msg sig sigBytes hdec hlow
    simp only [VerifyMsg, hdec, bind_ok_E, VerifyArrayBuffer, hlow]
    rfl

/-- Platform stub used by concrete witnesses: empty digests and raw
signatures, always-true verification. -/
def pf0 : Platform :=
  { digest := fun _ _ => [], sign := fun _ _ => [], verify := fun _ _ _ => true }

/-- Witness for C2: ES256 with an all-0xFF signature, whose S is far above
the half order. -/
theorem C2_low_s_gate_witness :
    IsSigLowS "ES256".toList (List.replicate 64 (255 : Byte)) = .ok false ∧
    VerifyArrayBuffer pf0 "ES256".toList {} [] (List.replicate 64 (255 : Byte)) =
      .ok (false, false) ∧
    (IsLowS "ES256".toList 7 = .ok true ↔ 7 < orderES256 / 2) :=
  ⟨by decide,
    (C2_low_s_gate "ES256".toList (Or.inr (Or.inl rfl))).2.1 pf0 {} []
      (List.replicate 64 (255 : Byte)) (by decide),
    (C2_low_s_gate "ES256".toList (Or.inr (Or.inl rfl))).1 orderES256 7 (by decide)⟩

/-- C3: for an ECDSA signature whose S component is already low, the
substituted signature with S replaced by n - S verifies false against the
same key and message (the platform primitive is not even invoked);
applying the low-S normalization to the substituted signature reproduces
the original signature bytes (R unchanged, S re-encoded at the same fixed
width), and verifying the normalized signature returns true. -/
theorem C3_low_s_substitution (alg : List Char)
    (halg : alg = "ES224".toList ∨ alg = "ES256".toList ∨ alg = "ES384".toList ∨
      alg = "ES512".toList)
    (pf : Platform) (k : Key) (msg : List Char) (size n : Nat)
    (hsz : SigSize alg = .ok size) (hn : CurveOrder alg = .ok n)
    (r sBytes : List Byte) (hr : r.length = size / 2) (hs : sBytes.length = size / 2)
    (hlow : IsLowS alg (arrayBufferToBigInt sBytes) = .ok true)
    (hverify : pf.verify k msg (r ++ sBytes) = true) :
    VerifyArrayBuffer pf alg k msg
        (r ++ bigIntToArrayBuffer (size / 2) (n - arrayBufferToBigInt sBytes)) =
      .ok (false, false) ∧
    sigToLowSArrayBuffer alg
        (r ++ bigIntToArrayBuffer (size / 2) (n - arrayBufferToBigInt sBytes)) =
      .ok (r ++ sBytes) ∧
    VerifyArrayBuffer pf alg k msg (r ++ sBytes) = .ok (true, true) := by
  have hfacts : CurveHalfOrder alg = .ok (n >>> 1) ∧ n < 256 ^ (size / 2) := by
    rcases halg with h | h | h | h <;> subst h
    · rw [show CurveOrder "ES224".toList = Except.ok orderES224 from by decide] at hn
      rw [show SigSize "ES224".toList = Except.ok 56 from by decide] at hsz
      simp only [Except.ok.injEq] at hn hsz
      subst hn; subst hsz
      exact ⟨by decide, by decide⟩
    · rw [show CurveOrder "ES256".toList = Except.ok orderES256 from by decide] at hn
      rw [show SigSize "ES256".toList = Except.ok 64 from by decide] at hsz
      simp only [Except.ok.injEq] at hn hsz
      subst hn; subst hsz
      exact ⟨by decide, by decide⟩
    · rw [show CurveOrder "ES384".toList = Except.ok orderES384 from by decide] at hn
      rw [show SigSize "ES384".toList = Except.ok 96 from by decide] at hsz
      simp only [Except.ok.injEq] at hn hsz
      subst hn; subst hsz
      exact ⟨by decide, by decide⟩
    · rw [show CurveOrder "ES512".toList = Except.ok orderES512 from by decide] at hn
      rw [show SigSize "ES512".toList = Except.ok 132 from by decide] at hsz
      simp only [Except.ok.injEq] at hn hsz
      subst hn; subst hsz
      exact ⟨by decide, by decide⟩
  obtain ⟨hh, hfit⟩ := hfacts
  have hlowN : arrayBufferToBigInt sBytes < n >>> 1 := by
    rw [IsLowS, hh] at hlow
    simp only [bind_ok_E, Except.ok.injEq, decide_eq_true_eq, gt_iff_lt] at hlow
    exact hlow
  exact lowS_substitution_core pf alg k msg size n hsz hn hh hfit r sBytes hr hs hlowN hverify

/-- The R half used by the C3 witness: 32 zero bytes. -/
def r0 : List Byte := List.replicate 32 (0 : Byte)

/-- The S half used by the C3 witness: the 32-byte big-endian encoding
of 1. -/
def s0 : List Byte := List.replicate 31 (0 : Byte) ++ [(1 : Byte)]

/-- Platform stub whose verify primitive accepts exactly the signature
r0 followed by s0. -/
def pf1 : Platform :=
  { digest := fun _ _ => [], sign := fun _ _ => [],
    verify := fun _ _ sg => decide (sg = r0 ++ s0) }

/-- Witness for C3 on ES256 with S = 1. -/
theorem C3_low_s_substitution_witness :
    VerifyArrayBuffer pf1 "ES256".toList {} []
        (r0 ++ bigIntToArrayBuffer (64 / 2) (orderES256 - arrayBufferToBigInt s0)) =
      .ok (false, false) ∧
    sigToLowSArrayBuffer "ES256".toList
        (r0 ++ bigIntToArrayBuffer (64 / 2) (orderES256 - arrayBufferToBigInt s0)) =
      .ok (r0 ++ s0) ∧
    VerifyArrayBuffer pf1 "ES256".toList {} [] (r0 ++ s0) = .ok (true, true) :=
  C3_low_s_substitution "ES256".toList (Or.inr (Or.inl rfl)) pf1 {} [] 64 orderES256
    (by decide) (by decide) r0 s0 (by decide) (by decide) (by decide) (by decide)

/-- C4: for every input over the URL-safe base-64 alphabet, the canonical
decoder succeeds exactly on inputs that re-encode (same alphabet, no
padding) to themselves: on success the input is the unique canonical
encoding of the returned bytes, and when the string decodes but is not the
canonical encoding of its byte value the decoder fails with the
non-canonical-encoding error. -/
theorem C4_canonical_b64_rejection (s : List Char)
    (hs : ∀ c ∈ s, isUrlB64Char c = true) :
    (∀ bytes, B64ToUint8Array s = .ok bytes →
      atob (s.map urlToStd) = .ok bytes ∧ ArrayBufferTo64ut bytes = s) ∧
    (∀ bytes, atob (s.map urlToStd) = .ok bytes → ArrayBufferTo64ut bytes ≠ s →
      B64ToUint8Array s = .error .nonCanonicalB64) := by
  constructor
  · intro bytes hok
    cases hat : atob (s.map urlToStd) with
    | error e =>
        rw [B64ToUint8Array] at hok
        simp only [hat] at hok
        cases hok
    | ok bs =>
        rw [B64ToUint8Array] at hok
        simp only [hat] at hok
        by_cases hre : ((btoa bs).filter (fun c => !(c = '='))) = s.map urlToStd
        · rw [if_pos hre] at hok
          cases hok
          exact ⟨rfl, (reencode_eq_iff bytes s hs).mp hre⟩
        · rw [if_neg hre] at hok
          cases hok
  · intro bytes hat hne
    have hre : ¬(((btoa bytes).filter (fun c => !(c = '='))) = s.map urlToStd) :=
      fun h => hne ((reencode_eq_iff bytes s hs).mp h)
    rw [B64ToUint8Array]
    simp only [hat]
    rw [if_neg hre]

/-- Witness for C4: the two-character input with a non-zero discarded low
bit ("AB") decodes to a single zero byte but is rejected as non-canonical,
while the canonical "AA" is accepted. -/
theorem C4_canonical_b64_rejection_witness :
    B64ToUint8Array "AB".toList = .error .nonCanonicalB64 ∧
    B64ToUint8Array "AA".toList = .ok [(0 : Byte)] ∧
    ArrayBufferTo64ut [(0 : Byte)] = "AA".toList :=
  ⟨(C4_canonical_b64_rejection "AB".toList (by decide)).2 [(0 : Byte)] (by decide)
      (by decide),
    by decide, by decide⟩

/-- C5: evaluation of `IsRevoked` at the claim's listed inputs. The code
returns false for the literal string "true" and the literal boolean true
(parseInt of either is NaN), although its own documentation and the claim
require true there; the positive-integer, zero, negative, "false", false
and absent cases behave as claimed. -/
theorem C5_isrevoked_literals :
    IsRevoked { rvk := some (Val.vint 1) } = true ∧
    IsRevoked { rvk := some (Val.vstr "true".toList) } = false ∧
    IsRevoked { rvk := some (Val.vbool true) } = false ∧
    IsRevoked { rvk := some (Val.vint 0) } = false ∧
    IsRevoked { rvk := some (Val.vstr "false".toList) } = false ∧
    IsRevoked { rvk := some (Val.vbool false) } = false ∧
    IsRevoked { rvk := some (Val.vint (-3)) } = false ∧
    IsRevoked {} = false := by
  decide

/-- C8: `Canonical` applied to the unit-test's duplicate canon. No error is
raised (the function is not even fallible); the duplicate names are
silently collapsed to one field each, in first-occurrence order, while the
unit test expects the error "Canonical: Canon cannot have duplicate
fields." and `HasDuplicates` is defined but never called. -/
theorem C8_duplicate_canon_not_rejected :
    Canonical
        [("c".toList, Val.vstr "c".toList), ("b".toList, Val.vstr "B".toList),
          ("a".toList, Val.vstr "a".toList), ("A".toList, Val.vstr "a".toList)]
        ["a".toList, "b".toList, "c".toList, "c".toList, "b".toList, "a".toList] =
      [("a".toList, Val.vstr "a".toList), ("b".toList, Val.vstr "B".toList),
        ("c".toList, Val.vstr "c".toList)] := by
  decide

/-! ## Destructuring successful runs of the signing pipeline -/

theorem except_bind_eq_ok {α β : Type} {x : Except Err α} {f : α → Except Err β}
    {b : β} (h : (x >>= f) = .ok b) : ∃ a, x = .ok a ∧ f a = .ok b := by
  cases x with
  | error e => rw [bind_err_E] at h; cases h
  | ok a => exact ⟨a, rfl, h⟩

theorem Sign_revoked (pf : Platform) (now : Int) (coze : Coze) (k : Key)
    (canon : List (List Char)) (h : IsRevoked k = true) :
    Sign pf now coze k canon = .error .revokedKey := by
  rw [Sign, if_pos (by rw [h])]

theorem IsRevoked_posInt (k : Key) (m : Int) (hm : 0 < m)
    (hk : k.rvk = some (.vint m)) : IsRevoked k = true := by
  have hm0 : ¬(m = 0) := by omega
  simp [IsRevoked, hk, fieldVal, isEmptyV, isBoolV, parseIntV, hm0, hm]

/-- The exact shape of a successful `Sign` run. -/
theorem Sign_ok_shape (pf : Platform) (now : Int) (coze : Coze) (k : Key)
    (canon : List (List Char)) (c2 : Coze) (k2 : Key)
    (h : Sign pf now coze k canon = .ok (c2, k2)) :
    ∃ t sg, Thumbprint pf k = .ok t ∧
      c2 = { coze with
        pay := (if !canon.isEmpty then
            Canonical (jsSet (jsSet (jsSet coze.pay "alg".toList (strFieldVal k.alg))
              "tmb".toList (.vstr t)) "iat".toList (.vint now)) canon
          else jsSet (jsSet (jsSet coze.pay "alg".toList (strFieldVal k.alg))
              "tmb".toList (.vstr t)) "iat".toList (.vint now)),
        sig := some sg } ∧
      k2 = k := by
  rw [Sign] at h
  by_cases hrev : IsRevoked k = true
  · rw [if_pos (by rw [hrev])] at h; cases h
  · rw [if_neg (by simpa using hrev)] at h
    obtain ⟨t, hth, h2⟩ := except_bind_eq_ok h
    obtain ⟨sg, hsp, h3⟩ := except_bind_eq_ok h2
    rw [Except.ok.injEq, Prod.mk.injEq] at h3
    exact ⟨t, sg, hth, h3.1.symm, h3.2.symm⟩

/-- The exact shape of a successful `SignCozeRaw` run. -/
theorem SignCozeRaw_ok_shape (pf : Platform) (coze : Coze) (k : Key)
    (canon : List (List Char)) (c2 : Coze) (k2 : Key)
    (h : SignCozeRaw pf coze k canon = .ok (c2, k2)) :
    ∃ sg,
      c2 = { coze with
        pay := (if !canon.isEmpty then Canonical coze.pay canon else coze.pay),
        sig := some sg } ∧
      k2 = k := by
  rw [SignCozeRaw] at h
  by_cases hrev : IsRevoked k = true
  · rw [if_pos (by rw [hrev])] at h; cases h
  · rw [if_neg (by simpa using hrev)] at h
    by_cases ha : (!isEmptyV (jsGet coze.pay "alg".toList) &&
        !valEqOptStr (jsGet coze.pay "alg".toList) k.alg) = true
    · rw [if_pos (by rw [ha])] at h; cases h
    · rw [if_neg (by simpa using ha)] at h
      by_cases hb : (!isEmptyV (jsGet coze.pay "tmb".toList) &&
          !valEqOptStr (jsGet coze.pay "tmb".toList) k.tmb) = true
      · rw [if_pos (by rw [hb])] at h; cases h
      · rw [if_neg (by simpa using hb)] at h
        obtain ⟨sg, hsp, h3⟩ := except_bind_eq_ok h
        rw [Except.ok.injEq, Prod.mk.injEq] at h3
        exact ⟨sg, h3.1.symm, h3.2.symm⟩

theorem jsGet_jsSet_self (o : JsObj) (k : List Char) (v : Val) :
    jsGet (jsSet o k v) k = v := by
  rw [jsGet_jsSet, if_pos rfl]

theorem jsGet_jsSet_ne (o : JsObj) (k q : List Char) (v : Val) (h : q ≠ k) :
    jsGet (jsSet o k v) q = jsGet o q := by
  rw [jsGet_jsSet, if_neg h]

/-- C6: after a successful `Revoke` of a key whose `rvk` was absent or a
positive integer timestamp, the key carries a positive-integer `rvk`
marker, and every subsequent `Sign` with that key fails with the
revoked-key error before doing anything else. -/
theorem C6_revocation_gate (pf : Platform) (now : Int) (k : Key)
    (msg : Option (List Char))
    (hrvk : k.rvk = none ∨ ∃ t : Int, 0 < t ∧ k.rvk = some (.vint t))
    (hnow : 0 < now) (c : Coze) (k2 : Key)
    (hrev : Revoke pf now k msg = .ok (c, k2)) :
    (∃ m : Int, 0 < m ∧ k2.rvk = some (.vint m)) ∧
    (∀ (pf2 : Platform) (now2 : Int) (coze2 : Coze) (canon2 : List (List Char)),
      Sign pf2 now2 coze2 k2 canon2 = .error .revokedKey) := by
  unfold Revoke at hrev
  by_cases hk0 : k = {}
  · rw [if_pos hk0] at hrev; cases hrev
  · rw [if_neg hk0] at hrev
    obtain ⟨p, hsign, h2⟩ := except_bind_eq_ok hrev
    obtain ⟨cz, kk⟩ := p
    obtain ⟨t, sg, hth, hcz, hkk⟩ :=
      Sign_ok_shape pf now _ _ [] cz kk hsign
    have hpayrvk : jsGet cz.pay "rvk".toList = .vint now := by
      rw [hcz]
      show jsGet (jsSet (jsSet (jsSet _ _ _) _ _) "iat".toList (.vint now))
          "rvk".toList = .vint now
      rw [jsGet_jsSet_ne _ _ _ _ (by decide), jsGet_jsSet_ne _ _ _ _ (by decide),
        jsGet_jsSet_ne _ _ _ _ (by decide), jsGet_jsSet_self]
    have hmarker : ∃ m : Int, 0 < m ∧ k2.rvk = some (.vint m) := by
      rcases hrvk with hnone | ⟨tv, htv, hsome⟩
      · rw [hnone] at h2
        rw [Except.ok.injEq, Prod.mk.injEq] at h2
        refine ⟨now, hnow, ?_⟩
        rw [← h2.2, hpayrvk]
      · rw [hsome] at h2
        rw [Except.ok.injEq, Prod.mk.injEq] at h2
        exact ⟨tv, htv, by rw [← h2.2]⟩
    refine ⟨hmarker, ?_⟩
    intro pf2 now2 coze2 canon2
    obtain ⟨m, hm, hk2⟩ := hmarker
    exact Sign_revoked pf2 now2 coze2 k2 canon2 (IsRevoked_posInt k2 m hm hk2)

/-- Signing key used by concrete witnesses: ES256 with a canonical one-byte
`x` and a private component. -/
def k0 : Key := { alg := some "ES256".toList, x := some "AA".toList, d := some "AA".toList }

/-- The coze produced by the C6 witness revocation. -/
def c6coze : Coze :=
  { pay := [("rvk".toList, Val.vint 1000), ("alg".toList, Val.vstr "ES256".toList),
      ("tmb".toList, Val.vstr []), ("iat".toList, Val.vint 1000)],
    sig := some (List.replicate 43 'A') }

/-- The key state after the C6 witness revocation. -/
def c6key : Key :=
  { alg := some "ES256".toList, x := some "AA".toList, d := some "AA".toList,
    rvk := some (Val.vint 1000) }

/-- Witness for C6: a concrete revocation after which signing fails with
the revoked-key error. -/
theorem C6_revocation_gate_witness :
    Sign pf0 2000 {} c6key [] = .error .revokedKey :=
  (C6_revocation_gate pf0 1000 k0 none (Or.inl rfl) (by decide) c6coze c6key
      (by decide)).2 pf0 2000 {} []

/-! ## Batch verification aggregation -/

theorem vca_fold (pf : Platform) (k : Key) (items : List CozeItem)
    (vo : VerifiedArray)
    (h : ∀ i ∈ items, VerifyCoze pf (itemCoze i) k = .ok true ∨
      VerifyCoze pf (itemCoze i) k = .ok false) :
    (items.foldlM
      (fun vo c0 => do
        let c := itemCoze c0
        let valid ← VerifyCoze pf c k
        if valid then pure { vo with VerifiedCount := vo.VerifiedCount + 1 }
        else pure { vo with FailedCount := vo.FailedCount + 1,
                            FailedCoze := vo.FailedCoze ++ [c] })
      vo : Except Err VerifiedArray) =
    .ok { VerifiedAll := vo.VerifiedAll,
          VerifiedCount := vo.VerifiedCount +
            (items.filter (fun i => decide (VerifyCoze pf (itemCoze i) k = .ok true))).length,
          FailedCount := vo.FailedCount +
            (items.filter (fun i => decide (VerifyCoze pf (itemCoze i) k = .ok false))).length,
          FailedCoze := vo.FailedCoze ++
            (items.filter
              (fun i => decide (VerifyCoze pf (itemCoze i) k = .ok false))).map itemCoze } := by
  induction items generalizing vo with
  | nil =>
      simp only [List.foldlM_nil, List.filter_nil, List.length_nil, List.map_nil,
        Nat.add_zero, List.append_nil]
      rfl
  | cons i t ih =>
      have hi := h i (by simp)
      have ht : ∀ j ∈ t, VerifyCoze pf (itemCoze j) k = .ok true ∨
          VerifyCoze pf (itemCoze j) k = .ok false :=
        fun j hj => h j (by simp [hj])
      rw [List.foldlM_cons]
      rcases hi with hv | hv
      · have hvf : ¬(VerifyCoze pf (itemCoze i) k = .ok false) := by
          rw [hv]; intro hc; cases hc
        simp only [hv, bind_ok_E, eq_self_iff_true, if_true, pure_bind]
        rw [ih _ ht]
        simp [List.filter_cons, decide_eq_true hv, decide_eq_false hvf,
          VerifiedArray.mk.injEq, Nat.add_assoc, Nat.add_comm, Nat.add_left_comm,
          List.append_assoc]
      · have hvt : ¬(VerifyCoze pf (itemCoze i) k = .ok true) := by
          rw [hv]; intro hc; cases hc
        simp only [hv, bind_ok_E, Bool.false_eq_true, if_false, pure_bind]
        rw [ih _ ht]
        simp [List.filter_cons, decide_eq_true hv, decide_eq_false hvt,
          VerifiedArray.mk.injEq, Nat.add_assoc, Nat.add_comm, Nat.add_left_comm,
          List.append_assoc]

/-- C7 (amended): on a batch in which every (unwrapped) element verifies to
a boolean, `VerifyCozeArray` counts the true results, counts and collects
the false results, and sets `VerifiedAll` iff no element failed - including
the empty batch, for which `VerifiedAll` is true. -/
theorem C7_batch_aggregation (pf : Platform) (k : Key) (items : List CozeItem)
    (h : ∀ i ∈ items, VerifyCoze pf (itemCoze i) k = .ok true ∨
      VerifyCoze pf (itemCoze i) k = .ok false) :
    VerifyCozeArray pf items k =
      .ok { VerifiedAll := decide
              ((items.filter
                (fun i => decide (VerifyCoze pf (itemCoze i) k = .ok false))).length = 0),
            VerifiedCount :=
              (items.filter
                (fun i => decide (VerifyCoze pf (itemCoze i) k = .ok true))).length,
            FailedCount :=
              (items.filter
                (fun i => decide (VerifyCoze pf (itemCoze i) k = .ok false))).length,
            FailedCoze :=
              (items.filter
                (fun i => decide (VerifyCoze pf (itemCoze i) k = .ok false))).map
                  itemCoze } := by
  simp only [VerifyCozeArray]
  rw [vca_fold pf k items _ h]
  simp only [bind_ok_E, Nat.zero_add, List.nil_append]
  by_cases hz :
      (items.filter (fun i => decide (VerifyCoze pf (itemCoze i) k = .ok false))).length = 0
  · rw [if_pos hz, decide_eq_true hz]
    rfl
  · rw [if_neg hz, decide_eq_false hz]
    rfl

/-- Counterexample for C7 as stated: the empty batch reports
`VerifiedAll = true` although it contains no verified element, so
"all-verified requires the batch to be non-empty" fails on the code. -/
theorem C7_batch_aggregation_counterexample :
    VerifyCozeArray pf0 [] {} =
      .ok { VerifiedAll := true, VerifiedCount := 0, FailedCount := 0,
            FailedCoze := [] } := by
  decide

/-- Verification key for the C7 witness. -/
def kV : Key := { alg := some "ES256".toList, x := some "AA".toList }

/-- Platform stub for the C7 witness: accepts exactly the one-byte
signature buffer. -/
def pfV : Platform :=
  { digest := fun _ _ => [], sign := fun _ _ => [],
    verify := fun _ _ sg => decide (sg = [(0 : Byte)]) }

/-- A coze that verifies under `pfV`. -/
def c7T : Coze := { pay := [], sig := some "AA".toList }

/-- A coze that fails verification under `pfV`. -/
def c7F : Coze := { pay := [], sig := some "AAAA".toList }

/-- Witness for C7: a two-element batch with one pass and one failure. -/
theorem C7_batch_aggregation_witness :
    VerifyCozeArray pfV [CozeItem.plain c7T, CozeItem.plain c7F] kV =
      .ok { VerifiedAll := false, VerifiedCount := 1, FailedCount := 1,
            FailedCoze := [c7F] } := by
  rw [C7_batch_aggregation pfV kV [CozeItem.plain c7T, CozeItem.plain c7F] (by decide)]
  decide

/-- Counterexample to C9 as stated: `Sign` silently replaces a conflicting
pre-existing `pay.alg` (ES384 with an ES256 key) and succeeds, instead of
failing with a mismatch error. -/
theorem C9_mismatch_policy_counterexample :
    Sign pf0 1000 { pay := [("alg".toList, Val.vstr "ES384".toList)] } k0 [] =
      .ok ({ pay := [("alg".toList, Val.vstr "ES256".toList),
                ("tmb".toList, Val.vstr []), ("iat".toList, Val.vint 1000)],
             sig := some (List.replicate 43 'A') }, k0) := by
  decide

/-- C9 (amended): the conditional-mode `SignCoze` populates `alg`/`tmb`
only when absent and fails with the mismatch errors when a pre-existing
value conflicts with the key, while the unconditional `Sign` never raises a
mismatch error - on success it has overwritten `pay.alg` and `pay.tmb` with
the key's values. -/
theorem C9_mismatch_policy :
    (∀ (pf : Platform) (now : Int) (coze : Coze) (k : Key) (canon : List (List Char)),
      IsRevoked k = false →
      isEmptyV (jsGet coze.pay "alg".toList) = false →
      valEqOptStr (jsGet coze.pay "alg".toList) k.alg = false →
      (isEmptyV (jsGet coze.pay "tmb".toList) = false ∨ ∃ t, Thumbprint pf k = .ok t) →
      SignCoze pf now coze k canon = .error .algMismatch) ∧
    (∀ (pf : Platform) (now : Int) (coze : Coze) (k : Key) (canon : List (List Char)),
      IsRevoked k = false →
      isEmptyV (jsGet coze.pay "alg".toList) = false →
      valEqOptStr (jsGet coze.pay "alg".toList) k.alg = true →
      isEmptyV (jsGet coze.pay "tmb".toList) = false →
      valEqOptStr (jsGet coze.pay "tmb".toList) k.tmb = false →
      SignCoze pf now coze k canon = .error .tmbMismatch) ∧
    (∀ (pf : Platform) (now : Int) (coze : Coze) (k : Key) (c2 : Coze) (k2 : Key),
      Sign pf now coze k [] = .ok (c2, k2) →
      jsGet c2.pay "alg".toList = strFieldVal k.alg ∧
      ∃ t, Thumbprint pf k = .ok t ∧ jsGet c2.pay "tmb".toList = .vstr t) := by
  refine ⟨?_, ?_, ?_⟩
  · intro pf now coze k canon hrev halg hveq hdisj
    by_cases htmb : isEmptyV (jsGet coze.pay "tmb".toList) = true
    · obtain ⟨t, hth⟩ : ∃ t, Thumbprint pf k = .ok t := by
        rcases hdisj with hne | hsome
        · rw [htmb] at hne; cases hne
        · exact hsome
      simp only [SignCoze, hrev, Bool.false_eq_true, if_false, halg, htmb, if_true,
        pure_bind, hth, bind_ok_E,
        jsGet_jsSet_ne _ _ _ _ (show "alg".toList ≠ "tmb".toList from by decide),
        hveq, Bool.not_false, if_true]
    · have htmbf : isEmptyV (jsGet coze.pay "tmb".toList) = false := by
        cases hb : isEmptyV (jsGet coze.pay "tmb".toList)
        · rfl
        · exact absurd hb htmb
      simp only [SignCoze, hrev, Bool.false_eq_true, if_false, halg, htmbf,
        pure_bind, hveq, Bool.not_false, if_true]
  · intro pf now coze k canon hrev halg hveqa htmb hveqt
    simp only [SignCoze, hrev, Bool.false_eq_true, if_false, halg, htmb,
      pure_bind, hveqa, Bool.not_true, if_false, hveqt, Bool.not_false, if_true]
  · intro pf now coze k c2 k2 h
    obtain ⟨t, sg, hth, hc2, hk2⟩ := Sign_ok_shape pf now coze k [] c2 k2 h
    have hc2pay : c2.pay = jsSet (jsSet (jsSet coze.pay "alg".toList
        (strFieldVal k.alg)) "tmb".toList (.vstr t)) "iat".toList (.vint now) := by
      rw [hc2]
      rfl
    constructor
    · rw [hc2pay,
        jsGet_jsSet_ne _ _ _ _ (show "alg".toList ≠ "iat".toList from by decide),
        jsGet_jsSet_ne _ _ _ _ (show "alg".toList ≠ "tmb".toList from by decide),
        jsGet_jsSet_self]
    · refine ⟨t, hth, ?_⟩
      rw [hc2pay,
        jsGet_jsSet_ne _ _ _ _ (show "tmb".toList ≠ "iat".toList from by decide),
        jsGet_jsSet_self]

/-- Witness for C9 (amended): `SignCoze` with a conflicting pre-existing
`pay.alg` fails with the alg-mismatch error. -/
theorem C9_mismatch_policy_witness :
    SignCoze pf0 1000
        { pay := [("alg".toList, Val.vstr "ES384".toList),
            ("tmb".toList, Val.vstr "x".toList)] } k0 [] =
      .error .algMismatch :=
  C9_mismatch_policy.1 pf0 1000
    { pay := [("alg".toList, Val.vstr "ES384".toList),
        ("tmb".toList, Val.vstr "x".toList)] } k0 []
    (by decide) (by decide) (by decide) (Or.inl (by decide))

/-- C10: successful `Sign` and `SignCozeRaw` runs return the input coze
updated only at `pay` (the metadata updates, and the canonicalized
replacement when a canon is given) and `sig`; the other top-level fields
`can`, `cad`, `czd`, `key` are untouched and the coze-key argument is left
unmodified (the returned key state equals the input key). In the source
both functions mutate the argument in place and return that same
reference. -/
theorem C10_sign_in_place_frame :
    (∀ (pf : Platform) (now : Int) (coze : Coze) (k : Key)
        (canon : List (List Char)) (c2 : Coze) (k2 : Key),
      Sign pf now coze k canon = .ok (c2, k2) →
      k2 = k ∧ c2.can = coze.can ∧ c2.cad = coze.cad ∧ c2.czd = coze.czd ∧
      c2.key = coze.key ∧
      ∃ t sg, Thumbprint pf k = .ok t ∧ c2.sig = some sg ∧
        c2.pay = (if !canon.isEmpty then
            Canonical (jsSet (jsSet (jsSet coze.pay "alg".toList (strFieldVal k.alg))
              "tmb".toList (.vstr t)) "iat".toList (.vint now)) canon
          else jsSet (jsSet (jsSet coze.pay "alg".toList (strFieldVal k.alg))
              "tmb".toList (.vstr t)) "iat".toList (.vint now))) ∧
    (∀ (pf : Platform) (coze : Coze) (k : Key) (canon : List (List Char))
        (c2 : Coze) (k2 : Key),
      SignCozeRaw pf coze k canon = .ok (c2, k2) →
      k2 = k ∧ c2.can = coze.can ∧ c2.cad = coze.cad ∧ c2.czd = coze.czd ∧
      c2.key = coze.key ∧
      ∃ sg, c2.sig = some sg ∧
        c2.pay = (if !canon.isEmpty then Canonical coze.pay canon else coze.pay)) := by
  constructor
  · intro pf now coze k canon c2 k2 h
    obtain ⟨t, sg, hth, hc2, hk2⟩ := Sign_ok_shape pf now coze k canon c2 k2 h
    subst hc2
    exact ⟨hk2, rfl, rfl, rfl, rfl, t, sg, hth, rfl, rfl⟩
  · intro pf coze k canon c2 k2 h
    obtain ⟨sg, hc2, hk2⟩ := SignCozeRaw_ok_shape pf coze k canon c2 k2 h
    subst hc2
    exact ⟨hk2, rfl, rfl, rfl, rfl, sg, rfl, rfl⟩

/-- The coze produced by the C10 witness signing run. -/
def c10coze : Coze :=
  { pay := [("alg".toList, Val.vstr "ES256".toList), ("tmb".toList, Val.vstr []),
      ("iat".toList, Val.vint 1000)],
    sig := some (List.replicate 43 'A') }

/-- Witness for C10 at a concrete signing run. -/
theorem C10_sign_in_place_frame_witness :
    k0 = k0 ∧ c10coze.can = ({} : Coze).can ∧ c10coze.cad = ({} : Coze).cad ∧
    c10coze.czd = ({} : Coze).czd ∧ c10coze.key = ({} : Coze).key ∧
    ∃ t sg, Thumbprint pf0 k0 = .ok t ∧ c10coze.sig = some sg ∧
      c10coze.pay = (if !([] : List (List Char)).isEmpty then
          Canonical (jsSet (jsSet (jsSet ({} : Coze).pay "alg".toList
            (strFieldVal k0.alg)) "tmb".toList (.vstr t)) "iat".toList (.vint 1000)) []
        else jsSet (jsSet (jsSet ({} : Coze).pay "alg".toList
            (strFieldVal k0.alg)) "tmb".toList (.vstr t)) "iat".toList (.vint 1000)) :=
  C10_sign_in_place_frame.1 pf0 1000 {} k0 [] c10coze k0 (by decide)
